import Mathlib

/-!
Verification development for the IPO screener application.

The definitions below are a shallow embedding of the Python sources:
  - indicators.py : `_is_na_scalar`, `_to_scalar`, `calculate_moving_averages`,
    `get_ma_signals`
  - app.py        : the percent-change computation, the manual-ticker merge and
    the per-ticker screener-row loop of `main`
  - data_fetcher.py : the deduplication stage of `get_recent_ipos`

Numeric cells are modelled over `ℚ` (Python floats, overflow-free in the
ranges at play); a pandas cell that may be NA, a scalar, a non-numeric object
or a nested Series/Index is modelled by the inductive type `Cell`.
-/

namespace IpoScreener

/-- A pandas cell value as seen by `_to_scalar` (indicators.py):
either NA (None / NaN / pd.NA / NaT), a numeric scalar, a non-numeric
non-NA object (for which `float()` raises), or a vector-like
Series/Index holding further cells. -/
inductive Cell : Type where
  | na : Cell
  | num : ℚ → Cell
  | obj : Cell
  | seq : List Cell → Cell

/-- Elementwise `pd.isna` applied to one entry of a Series/Index:
only genuine NA scalars register; numbers, objects and nested
vector-like entries do not. -/
def isNAElem : Cell → Bool
  | Cell.na => true
  | _ => false

/-- indicators.py `_is_na_scalar`: `pd.isna` collapsed to one boolean.
On a Series/Index, `pd.isna` is elementwise and the code treats the
value as NA iff all entries are NA (vacuously true for an empty one). -/
def is_na_scalar : Cell → Bool
  | Cell.na => true
  | Cell.num _ => false
  | Cell.obj => false
  | Cell.seq l => l.all isNAElem

/-- Python `float(x)` as used in `_to_scalar`, returning `none` where the
call raises TypeError/ValueError.  `float` of a one-element numeric
Series extracts the element (pandas ≤ 2.x); on a multi-element or
non-numeric Series, or on a non-numeric object, it raises. -/
def tryFloat : Cell → Option ℚ
  | Cell.num q => some q
  | Cell.seq [Cell.num q] => some q
  | _ => none

/-- indicators.py `_to_scalar`: coerce a cell to a single numeric scalar
or `none`.  NA-like values give `none`; a vector-like value is reduced
to its last element (`iloc[-1]`), which is NA-checked and passed to
`float`; a plain value is passed to `float` directly. -/
def to_scalar (value : Cell) : Option ℚ :=
  if is_na_scalar value then none
  else
    match value with
    | Cell.seq l =>
      if l.length = 0 then none
      else
        match l.getLast? with
        | none => none
        | some scalar => if is_na_scalar scalar then none else tryFloat scalar
    | v => tryFloat v

/-- A pandas DataFrame: a row count and an ordered list of named columns.
Price-frame cells are floats-or-NaN, modelled as `Option ℚ`. -/
structure DataFrame : Type where
  nrows : Nat
  cols : List (String × List (Option ℚ))
deriving DecidableEq, Repr

/-- pandas `df.empty`: true when either axis has length zero. -/
def DataFrame.isEmpty (df : DataFrame) : Bool :=
  df.nrows == 0 || df.cols.isEmpty

/-- pandas `df.get(name)`: the named column, or `none` when absent. -/
def colsGet : List (String × List (Option ℚ)) → String → Option (List (Option ℚ))
  | [], _ => none
  | c :: cs, name => if c.1 = name then some c.2 else colsGet cs name

/-- pandas `df[name] = v` on a frame without duplicate column names:
replace the column in place when present, else append it at the end. -/
def setCol : List (String × List (Option ℚ)) → String → List (Option ℚ) →
    List (String × List (Option ℚ))
  | [], name, v => [(name, v)]
  | c :: cs, name, v => if c.1 = name then (name, v) :: cs else c :: setCol cs name v

/-- Accessor `df.get(name)` on a DataFrame. -/
def DataFrame.getCol (df : DataFrame) (name : String) : Option (List (Option ℚ)) :=
  colsGet df.cols name

/-- Lookup `df.iloc[-1].get(name)` (equally `df.iloc[i].get(name)`): the cell of
column `name` at row `i`, as a `Cell`.  A missing column yields Python
`None` and a NaN entry yields NaN — both NA-like, hence `Cell.na`. -/
def rowGet (df : DataFrame) (name : String) (i : Nat) : Cell :=
  match colsGet df.cols name with
  | none => Cell.na
  | some col =>
    match col.get? i with
    | some (some q) => Cell.num q
    | _ => Cell.na

/-- The trailing window of `w` closes ending at position `i`
(positions `i+1-w` through `i`). -/
def windowSlice (w : Nat) (closes : List (Option ℚ)) (i : Nat) : List (Option ℚ) :=
  (closes.drop (i + 1 - w)).take w

/-- pandas `closes.rolling(window=w, min_periods=w).mean()`: at each
position the mean of the trailing `w` entries, present exactly when the
window is complete and all its entries are non-NaN. -/
def rollingMean (w : Nat) (closes : List (Option ℚ)) : List (Option ℚ) :=
  (List.range closes.length).map (fun i =>
    if w ≤ i + 1 then
      let win := windowSlice w closes i
      if win.all (fun x => x.isSome) then
        some ((win.map (fun x => x.getD 0)).sum / (w : ℚ))
      else none
    else none)

/-- One iteration of the window loop of `calculate_moving_averages`
(indicators.py lines 69–78): skip non-positive windows; otherwise write
the `SMA_<window>` column — the rolling mean when `len(df) >= window`,
else a column of NA. -/
def maStep (closes : List (Option ℚ)) (acc : DataFrame) (w : Int) : DataFrame :=
  if w ≤ 0 then acc
  else
    let col := "SMA_" ++ toString w
    if w ≤ (acc.nrows : Int) then
      { acc with cols := setCol acc.cols col (rollingMean w.toNat closes) }
    else
      { acc with cols := setCol acc.cols col (List.replicate acc.nrows none) }

/-- indicators.py `calculate_moving_averages`: add an `SMA_<window>`
column per positive window — the rolling mean when `len(df) >= window`,
an all-NA column otherwise.  Empty frames and frames without a `Close`
column are returned unchanged. -/
def calculate_moving_averages (df : DataFrame) (windows : List Int) : DataFrame :=
  if df.isEmpty then df
  else
    match df.getCol "Close" with
    | none => df
    | some closes => windows.foldl (maStep closes) df

/-- The last row of a frame, as the association list a pandas Series
`df.iloc[-1]` provides. -/
def lastRow (df : DataFrame) : List (String × Option ℚ) :=
  df.cols.map (fun c => (c.1, (c.2.get? (df.nrows - 1)).join))

/-- indicators.py `get_ma_signals`: classify the latest close against
each requested moving average.  Returns the window→signal mapping and
the latest row. -/
def get_ma_signals (df : DataFrame) (windows : List Int) :
    List (Int × String) × List (String × Option ℚ) :=
  if df.isEmpty then ([], [])
  else
    let close := rowGet df "Close" (df.nrows - 1)
    ( windows.map (fun w =>
        let ma_value := rowGet df ("SMA_" ++ toString w) (df.nrows - 1)
        let close_scalar := to_scalar close
        let ma_scalar := to_scalar ma_value
        (w, match close_scalar, ma_scalar with
            | some c, some m => if m < c then "above" else "below"
            | _, _ => "n/a"))
    , lastRow df )

/-- app.py `main`, lines 159–161: the percent change from the first to
the last close of the window, `none` when either close is missing or
the first close is zero. -/
def change_pct (first_close last_close : Option ℚ) : Option ℚ :=
  match first_close, last_close with
  | some f, some l => if f ≠ 0 then some ((l / f - 1) * 100) else none
  | _, _ => none

/-- The fields of a screener-table row that the verified claims touch
(ticker, latest price, percent change since window start). -/
structure Row : Type where
  ticker : String
  currentPrice : Option ℚ
  changePct : Option ℚ
deriving DecidableEq, Repr

/-- The body of the per-ticker loop of app.py `main` for a ticker whose
price frame is non-empty: compute moving averages, coerce the first and
last closes, and assemble the row. -/
def buildRow (windows : List Int) (t : String) (price_df0 : DataFrame) : Row :=
  let price_df := calculate_moving_averages price_df0 windows
  let first_close := to_scalar (rowGet price_df "Close" 0)
  let last_close := to_scalar (rowGet price_df "Close" (price_df.nrows - 1))
  { ticker := t
  , currentPrice := last_close
  , changePct := change_pct first_close last_close }

/-- app.py `main`, lines 133–189: iterate over the tickers, skip any
whose price fetch is empty, and append a row for each of the rest. -/
def screener_rows (windows : List Int) (prices : String → DataFrame)
    (tickers : List String) : List Row :=
  tickers.foldl (fun rows t =>
    if (prices t).isEmpty then rows
    else rows ++ [buildRow windows t (prices t)]) []

/-- One record of the IPO table: ticker, company, exchange and IPO date
(dates as integer day numbers).  The date is optional: data_fetcher.py
line 43 builds `ipo_date = None` when the live calendar supplies no
`date` field, which becomes NaT in the frame. -/
structure IpoRecord : Type where
  ticker : String
  company : String
  exchange : String
  ipo_date : Option Int
deriving DecidableEq, Repr

/-- The synthetic record app.py builds for a manual ticker: company set
to the ticker itself, empty exchange, IPO date today. -/
def synthRecord (today : Int) (t : String) : IpoRecord :=
  ⟨t, t, "", some today⟩

/-- app.py `main`, lines 97–117: merge the manual tickers into the IPO
table, appending a synthetic record dated today for each ticker not
already present. -/
def attachManual (today : Int) (ipos : List IpoRecord) (manual : List String) :
    List IpoRecord :=
  manual.foldl (fun acc t =>
    if acc.isEmpty || !(acc.any (fun r => r.ticker == t)) then
      acc ++ [synthRecord today t]
    else acc) ipos

/-- data_fetcher.py lines 58–65: the hard-coded demo IPO list used when
no live records are available. -/
def demo_ipos (today : Int) : List IpoRecord :=
  [ ⟨"ARM", "Arm Holdings plc", "NASDAQ", some (today - 160)⟩
  , ⟨"KVYO", "Klaviyo Inc.", "NYSE", some (today - 140)⟩
  , ⟨"CART", "Maplebear Inc. (Instacart)", "NASDAQ", some (today - 135)⟩
  , ⟨"BIRK", "Birkenstock Holding plc", "NYSE", some (today - 130)⟩
  , ⟨"SEMR", "Semrush Holdings, Inc.", "NYSE", some (today - 320)⟩
  , ⟨"NUVL", "Nuvalent, Inc.", "NASDAQ", some (today - 280)⟩ ]

/-- The order `sort_values("ipo_date")` sorts the date column by:
dates ascending, with a missing date (NaT) placed after every present
date — `na_position` defaults to `'last'`. -/
def dateLE (x y : Option Int) : Prop :=
  match y with
  | none => True
  | some b =>
    match x with
    | none => False
    | some a => a ≤ b

instance : DecidableRel dateLE := fun x y =>
  match y with
  | none => isTrue trivial
  | some b =>
    match x with
    | none => isFalse id
    | some a => Int.decLe a b

lemma dateLE_refl (x : Option Int) : dateLE x x := by
  cases x with
  | none => trivial
  | some a => exact le_refl a

lemma dateLE_trans {x y z : Option Int} (h1 : dateLE x y) (h2 : dateLE y z) :
    dateLE x z := by
  cases z with
  | none => trivial
  | some c =>
    cases y with
    | none => exact h2.elim
    | some b =>
      cases x with
      | none => exact h1.elim
      | some a => exact le_trans h1 h2

lemma dateLE_total (x y : Option Int) : dateLE x y ∨ dateLE y x := by
  cases x with
  | none =>
    cases y with
    | none => exact Or.inl trivial
    | some b => exact Or.inr trivial
  | some a =>
    cases y with
    | none => exact Or.inl trivial
    | some b => exact Int.le_total a b

/-- The recency order records are sorted by. -/
def byDate (a b : IpoRecord) : Prop :=
  dateLE a.ipo_date b.ipo_date

instance : DecidableRel byDate :=
  fun a b => inferInstanceAs (Decidable (dateLE a.ipo_date b.ipo_date))

instance : IsTotal IpoRecord byDate :=
  ⟨fun a b => dateLE_total a.ipo_date b.ipo_date⟩

instance : IsTrans IpoRecord byDate :=
  ⟨fun _ _ _ hab hbc => dateLE_trans hab hbc⟩

lemma byDate_refl (r : IpoRecord) : byDate r r :=
  dateLE_refl r.ipo_date

/-- pandas `drop_duplicates(subset=["ticker"], keep="last")`: keep, for
each ticker, only its last occurrence, preserving order. -/
def drop_duplicates_keep_last (rs : List IpoRecord) : List IpoRecord :=
  rs.foldr (fun r acc =>
    if acc.any (fun s => s.ticker == r.ticker) then acc else r :: acc) []

/-- data_fetcher.py `get_recent_ipos`, record-level model: `api` stands
for the records assembled from the live IPO calendar (lines 24–54, after
the US-exchange filter); when it is empty the demo list is substituted
(lines 56–66); a non-empty table is then sorted by IPO date — NaT from
dateless records placed last — and deduplicated by ticker keeping the
last occurrence (lines 72–76). -/
def get_recent_ipos (api : List IpoRecord) (today : Int) : List IpoRecord :=
  let records := if api.isEmpty then demo_ipos today else api
  if records.isEmpty then records
  else drop_duplicates_keep_last (List.insertionSort byDate records)

/-- A price DataFrame carrying just a `Close` column holding the given
fully-present close series, as yfinance returns for a liquid ticker. -/
def mkPriceDf (closes : List ℚ) : DataFrame :=
  ⟨closes.length, [("Close", closes.map some)]⟩

/-! ### Helper lemmas -/

lemma sma_ne_close (s : String) : ("SMA_" ++ s) ≠ "Close" := by
  intro h
  have h2 : ("SMA_" ++ s).data = "Close".data := congrArg String.data h
  rw [String.data_append] at h2
  simp at h2

lemma calc_single (df : DataFrame) (closes : List (Option ℚ)) (w : Int)
    (hdf : df.isEmpty = false) (hclose : df.getCol "Close" = some closes) (hw : 0 < w) :
    calculate_moving_averages df [w] =
      if w ≤ (df.nrows : Int) then
        { df with
          cols := setCol df.cols ("SMA_" ++ toString w) (rollingMean w.toNat closes) }
      else
        { df with
          cols := setCol df.cols ("SMA_" ++ toString w) (List.replicate df.nrows none) } := by
  unfold calculate_moving_averages maStep
  rw [hdf]
  simp only [Bool.false_eq_true, if_false, hclose, List.foldl_cons, List.foldl_nil]
  rw [if_neg (by omega)]

lemma colsGet_setCol_close (cs v : List (Option ℚ)) (s : String) :
    colsGet (setCol [("Close", cs)] ("SMA_" ++ s) v) ("SMA_" ++ s) = some v := by
  simp [setCol, colsGet, sma_ne_close s, (sma_ne_close s).symm]

/-! ### Claims -/

/-- Claim C3: `_to_scalar` is total — on any cell it returns either a
number or the missing marker, never raising; an NA input (and likewise
an empty sequence or a non-numeric object) yields missing, and a
one-element numeric sequence yields its element. -/
theorem claim3_to_scalar_total :
    (∀ v : Cell, to_scalar v = none ∨ ∃ q : ℚ, to_scalar v = some q)
    ∧ to_scalar Cell.na = none
    ∧ to_scalar (Cell.seq []) = none
    ∧ to_scalar Cell.obj = none
    ∧ (∀ q : ℚ, to_scalar (Cell.seq [Cell.num q]) = some q) := by
  refine ⟨fun v => ?_, rfl, rfl, rfl, fun q => rfl⟩
  cases h : to_scalar v
  · exact Or.inl rfl
  · exact Or.inr ⟨_, rfl⟩

/-- Claim C5: the percent change since window start is
`(last/first - 1) * 100` when both closes are present and the first is
nonzero, and missing (not an error) when the first close is zero or
either close is missing. -/
theorem claim5_change_pct (f l : ℚ) :
    (f ≠ 0 → change_pct (some f) (some l) = some ((l / f - 1) * 100))
    ∧ change_pct (some 0) (some l) = none
    ∧ change_pct none (some l) = none
    ∧ change_pct (some f) none = none := by
  refine ⟨fun hf => ?_, ?_, rfl, rfl⟩
  · simp [change_pct, hf]
  · simp [change_pct]

/-- Witness for C5 at first close 50 and last close 75: +50.0%; first
close 0 gives missing. -/
theorem claim5_witness :
    change_pct (some 50) (some 75) = some 50 ∧ change_pct (some 0) (some 75) = none := by
  have h := claim5_change_pct 50 75
  refine ⟨?_, h.2.1⟩
  rw [h.1 (by norm_num)]
  norm_num

/-- Counterexample to claim C7 as stated: `_to_scalar` does not recurse
on the last element.  For the sequence `[1, [5, 3]]` the code applies
`float` to the inner two-element sequence, which fails, giving missing —
while `_to_scalar` of that last element is `3`. -/
theorem claim7_counterexample :
    to_scalar (Cell.seq [Cell.num 1, Cell.seq [Cell.num 5, Cell.num 3]])
      ≠ to_scalar (Cell.seq [Cell.num 5, Cell.num 3]) := by
  decide

/-- Amended claim C7: for a not-all-NA sequence whose last element is
not itself a sequence, `_to_scalar` of the sequence equals `_to_scalar`
of its last element.  (No recursion happens: a sequence-valued last
element is passed to `float` directly.) -/
theorem claim7_amended_stmt (l : List Cell) (e : Cell) (hl : l.getLast? = some e)
    (hna : l.all isNAElem = false) (hns : ∀ t, e ≠ Cell.seq t) :
    to_scalar (Cell.seq l) = to_scalar e := by
  have hlen : ¬(l.length = 0) := by
    intro h
    rw [List.length_eq_zero] at h
    subst h
    simp at hl
  cases e with
  | na => simp [to_scalar, is_na_scalar, hna, hl, hlen]
  | num q => simp [to_scalar, is_na_scalar, hna, hl, hlen, tryFloat]
  | obj => simp [to_scalar, is_na_scalar, hna, hl, hlen, tryFloat]
  | seq t => exact absurd rfl (hns t)

/-- Witness for amended C7 at the sequence `[2, 7]`. -/
theorem claim7_witness :
    to_scalar (Cell.seq [Cell.num 2, Cell.num 7]) = to_scalar (Cell.num 7) :=
  claim7_amended_stmt [Cell.num 2, Cell.num 7] (Cell.num 7) rfl rfl
    (fun _ h => Cell.noConfusion h)

/-- Counterexample to claim C4 as stated: on an empty frame (a close
series of length 0, which is less than the window 5) the function
returns early and creates no `SMA_5` column at all. -/
theorem claim4_counterexample :
    calculate_moving_averages ⟨0, [("Close", [])]⟩ [(5 : Int)] = ⟨0, [("Close", [])]⟩
    ∧ DataFrame.getCol (calculate_moving_averages ⟨0, [("Close", [])]⟩ [(5 : Int)])
        "SMA_5" = none :=
  ⟨rfl, rfl⟩

/-- Amended claim C4: for every positive window `w` and every *nonempty*
close series shorter than `w`, the `SMA_w` column is created and is
entirely missing. -/
theorem claim4_short_series (closes : List ℚ) (w : Nat) (h0 : 0 < w)
    (hne : closes ≠ []) (hlen : closes.length < w) :
    (calculate_moving_averages (mkPriceDf closes) [(w : Int)]).getCol
        ("SMA_" ++ toString (w : Int)) = some (List.replicate closes.length none) := by
  have hdf : (mkPriceDf closes).isEmpty = false := by
    simp [mkPriceDf, DataFrame.isEmpty, List.length_eq_zero, hne]
  have hclose : (mkPriceDf closes).getCol "Close" = some (closes.map some) := rfl
  rw [calc_single _ _ _ hdf hclose (by omega)]
  have hcond : ¬((w : Int) ≤ (((mkPriceDf closes).nrows : Nat) : Int)) := by
    show ¬((w : Int) ≤ ((closes.length : Nat) : Int))
    omega
  rw [if_neg hcond]
  exact colsGet_setCol_close _ _ _

/-- Witness for amended C4 at the one-element series `[1]` and window 3. -/
theorem claim4_witness :
    (calculate_moving_averages (mkPriceDf [1]) [(3 : Int)]).getCol "SMA_3"
      = some [none] :=
  claim4_short_series [1] 3 (by norm_num) (by simp) (by simp)


/-- Claim C1: for every positive window `w` and fully-present close
series of length at least `w`, `calculate_moving_averages` produces an
`SMA_w` column of the same length whose entry at each position
`i ≥ w-1` is the arithmetic mean of the `w` closes at positions
`i-w+1 .. i` (a span of exactly `w` closes), and whose entries before
position `w-1` are missing. -/
theorem claim1_sma (closes : List ℚ) (w : Nat) (h0 : 0 < w) (hlen : w ≤ closes.length) :
    ∃ sma : List (Option ℚ),
      (calculate_moving_averages (mkPriceDf closes) [(w : Int)]).getCol
          ("SMA_" ++ toString (w : Int)) = some sma
      ∧ sma.length = closes.length
      ∧ (∀ i, i < closes.length → w - 1 ≤ i →
          sma[i]? = some (some (((closes.drop (i + 1 - w)).take w).sum / (w : ℚ)))
          ∧ ((closes.drop (i + 1 - w)).take w).length = w)
      ∧ (∀ i, i < w - 1 → sma[i]? = some none) := by
  have hne : closes ≠ [] := by
    intro h
    subst h
    simp at hlen
    omega
  have hdf : (mkPriceDf closes).isEmpty = false := by
    simp [mkPriceDf, DataFrame.isEmpty, List.length_eq_zero, hne]
  have hclose : (mkPriceDf closes).getCol "Close" = some (closes.map some) := rfl
  refine ⟨rollingMean w (closes.map some), ?_, ?_, ?_, ?_⟩
  · rw [calc_single _ _ _ hdf hclose (by omega)]
    have hcond : ((w : Int) ≤ (((mkPriceDf closes).nrows : Nat) : Int)) := by
      show ((w : Int) ≤ ((closes.length : Nat) : Int))
      omega
    rw [if_pos hcond]
    have ht : ((w : Int)).toNat = w := Int.toNat_natCast w
    rw [ht]
    exact colsGet_setCol_close _ _ _
  · simp [rollingMean]
  · intro i hi hwi
    have hif : w ≤ i + 1 := by omega
    have hslice : windowSlice w (closes.map some) i = ((closes.drop (i + 1 - w)).take w).map some := by
      rw [windowSlice, ← List.map_drop, ← List.map_take]
    constructor
    · rw [rollingMean]
      rw [List.getElem?_map]
      rw [List.getElem?_range (by simpa using hi)]
      simp only [Option.map_some']
      rw [if_pos hif, hslice]
      have hall : ((List.map some (List.take w (List.drop (i + 1 - w) closes))).all
          fun x => x.isSome) = true := by
        rw [List.all_eq_true]
        intro x hx
        obtain ⟨y, -, rfl⟩ := List.mem_map.mp hx
        rfl
      rw [if_pos hall, List.map_map]
      have hcomp : ((fun (x : Option ℚ) => x.getD 0) ∘ some) = id := funext fun q => rfl
      rw [hcomp, List.map_id]
    · simp only [List.length_take, List.length_drop]
      omega
  · intro i hi
    have hif : ¬(w ≤ i + 1) := by omega
    rw [rollingMean, List.getElem?_map, List.getElem?_range (by simp; omega)]
    simp only [Option.map_some']
    rw [if_neg hif]

/-- Witness for C1 at the series `[1, 2, 3]` and window 2. -/
theorem claim1_witness :
    ∃ sma : List (Option ℚ),
      (calculate_moving_averages (mkPriceDf [1, 2, 3]) [((2 : Nat) : Int)]).getCol
          ("SMA_" ++ toString ((2 : Nat) : Int)) = some sma
      ∧ sma.length = ([1, 2, 3] : List ℚ).length
      ∧ (∀ i, i < ([1, 2, 3] : List ℚ).length → 2 - 1 ≤ i →
          sma[i]? = some (some (((([1, 2, 3] : List ℚ).drop (i + 1 - 2)).take 2).sum
            / ((2 : Nat) : ℚ)))
          ∧ ((([1, 2, 3] : List ℚ).drop (i + 1 - 2)).take 2).length = 2)
      ∧ (∀ i, i < 2 - 1 → sma[i]? = some none) :=
  claim1_sma [1, 2, 3] 2 (by norm_num) (by decide)

lemma lookup_map_pair (l : List Int) (g : Int → String) (w : Int) (hw : w ∈ l) :
    List.lookup w (l.map (fun x => (x, g x))) = some (g w) := by
  induction l with
  | nil => cases hw
  | cons a rest ih =>
    by_cases h : w = a
    · subst h
      simp [List.lookup]
    · have hb : (w == a) = false := beq_eq_false_iff_ne.mpr h
      have hmem : w ∈ rest := by
        cases hw with
        | head => exact absurd rfl h
        | tail _ hm => exact hm
      simpa [List.lookup, hb] using ih hmem

/-- Claim C2: for each requested window, `get_ma_signals` classifies the
latest bar as above exactly when the coerced close strictly exceeds the
coerced moving average, as below when it is less or equal (equality has
no separate branch), and as not-available when either operand coerces to
missing. -/
theorem claim2_signals (df : DataFrame) (windows : List Int) (w : Int)
    (hw : w ∈ windows) (hne : df.isEmpty = false) :
    (∀ c m, to_scalar (rowGet df "Close" (df.nrows - 1)) = some c →
        to_scalar (rowGet df ("SMA_" ++ toString w) (df.nrows - 1)) = some m →
        m < c →
        List.lookup w (get_ma_signals df windows).1 = some "above")
    ∧ (∀ c m, to_scalar (rowGet df "Close" (df.nrows - 1)) = some c →
        to_scalar (rowGet df ("SMA_" ++ toString w) (df.nrows - 1)) = some m →
        c ≤ m →
        List.lookup w (get_ma_signals df windows).1 = some "below")
    ∧ ((to_scalar (rowGet df "Close" (df.nrows - 1)) = none
        ∨ to_scalar (rowGet df ("SMA_" ++ toString w) (df.nrows - 1)) = none) →
        List.lookup w (get_ma_signals df windows).1 = some "n/a") := by
  have hsig : (get_ma_signals df windows).1 =
      windows.map (fun x =>
        (x, match to_scalar (rowGet df "Close" (df.nrows - 1)),
              to_scalar (rowGet df ("SMA_" ++ toString x) (df.nrows - 1)) with
            | some c, some m => if m < c then "above" else "below"
            | _, _ => "n/a")) := by
    simp [get_ma_signals, hne]
  have hlook := lookup_map_pair windows
    (fun x => match to_scalar (rowGet df "Close" (df.nrows - 1)),
        to_scalar (rowGet df ("SMA_" ++ toString x) (df.nrows - 1)) with
      | some c, some m => if m < c then "above" else "below"
      | _, _ => "n/a") w hw
  rw [hsig]
  refine ⟨fun c m hc hm hlt => ?_, fun c m hc hm hle => ?_, fun hna => ?_⟩
  · rw [hlook]
    beta_reduce
    rw [hc, hm]
    simp [hlt]
  · rw [hlook]
    beta_reduce
    rw [hc, hm]
    simp [not_lt_of_le hle]
  · rw [hlook]
    beta_reduce
    cases hna with
    | inl h => rw [h]
    | inr h =>
      rw [h]
      cases to_scalar (rowGet df "Close" (df.nrows - 1)) <;> rfl

lemma colsGet_setCol_ne (cols : List (String × List (Option ℚ))) (s name : String)
    (v : List (Option ℚ)) (h : name ≠ s) :
    colsGet (setCol cols s v) name = colsGet cols name := by
  induction cols with
  | nil => simp [setCol, colsGet, Ne.symm h]
  | cons c cs ih =>
    by_cases hc : c.1 = s
    · rw [setCol, if_pos hc]
      rw [colsGet, colsGet, if_neg (Ne.symm h), if_neg (by rw [hc]; exact Ne.symm h)]
    · rw [setCol, if_neg hc]
      rw [colsGet, colsGet]
      by_cases hn : c.1 = name
      · rw [if_pos hn, if_pos hn]
      · rw [if_neg hn, if_neg hn, ih]

lemma maStep_nonpos (closes : List (Option ℚ)) (acc : DataFrame) (w : Int)
    (h : w ≤ 0) : maStep closes acc w = acc := by
  rw [maStep, if_pos h]

lemma maStep_untouched (closes : List (Option ℚ)) (acc : DataFrame) (w : Int)
    (name : String) (h : name ≠ "SMA_" ++ toString w) :
    colsGet (maStep closes acc w).cols name = colsGet acc.cols name := by
  rw [maStep]
  split_ifs with h1 h2
  · rfl
  · exact colsGet_setCol_ne _ _ _ _ h
  · exact colsGet_setCol_ne _ _ _ _ h

lemma fold_untouched (closes : List (Option ℚ)) :
    ∀ (windows : List Int) (acc : DataFrame) (name : String),
      (∀ w ∈ windows, name ≠ "SMA_" ++ toString w) →
      colsGet (windows.foldl (maStep closes) acc).cols name = colsGet acc.cols name := by
  intro windows
  induction windows with
  | nil => intro acc name _; rfl
  | cons a rest ih =>
    intro acc name h
    rw [List.foldl_cons, ih _ name (fun w hw => h w (List.mem_cons_of_mem a hw)),
      maStep_untouched _ _ _ _ (h a (List.mem_cons_self a rest))]

lemma fold_newcols (closes : List (Option ℚ)) :
    ∀ (windows : List Int) (acc : DataFrame) (name : String),
      colsGet acc.cols name = none →
      colsGet (windows.foldl (maStep closes) acc).cols name ≠ none →
      ∃ w, w ∈ windows ∧ 0 < w ∧ name = "SMA_" ++ toString w := by
  intro windows
  induction windows with
  | nil => intro acc name h hne; exact absurd h hne
  | cons a rest ih =>
    intro acc name h hne
    rw [List.foldl_cons] at hne
    by_cases ha : a ≤ 0
    · rw [maStep_nonpos _ _ _ ha] at hne
      obtain ⟨w, hw, hpos, hn⟩ := ih acc name h hne
      exact ⟨w, List.mem_cons_of_mem a hw, hpos, hn⟩
    · by_cases hname : name = "SMA_" ++ toString a
      · exact ⟨a, List.mem_cons_self a rest, by omega, hname⟩
      · have h2 : colsGet (maStep closes acc a).cols name = none := by
          rw [maStep_untouched _ _ _ _ hname]
          exact h
        obtain ⟨w, hw, hpos, hn⟩ := ih _ name h2 hne
        exact ⟨w, List.mem_cons_of_mem a hw, hpos, hn⟩

lemma foldl_nonpos_skip (closes : List (Option ℚ)) :
    ∀ (l : List Int) (acc : DataFrame), (∀ w ∈ l, w ≤ 0) →
      List.foldl (maStep closes) acc l = acc := by
  intro l
  induction l with
  | nil => intro acc _; rfl
  | cons a rest ih =>
    intro acc h
    rw [List.foldl_cons, maStep_nonpos _ _ _ (h a (List.mem_cons_self a rest))]
    exact ih acc (fun w hw => h w (List.mem_cons_of_mem a hw))

/-- Claim C8: non-positive windows are ignored — a window set of only
non-positive values leaves the frame unchanged; columns not named
`SMA_<w>` for a requested window are untouched; and any column the
function adds is `SMA_<w>` for some strictly positive requested `w`. -/
theorem claim8_windows :
    (∀ (df : DataFrame) (windows : List Int), (∀ w ∈ windows, w ≤ 0) →
      calculate_moving_averages df windows = df)
    ∧ (∀ (df : DataFrame) (windows : List Int) (name : String),
      (∀ w ∈ windows, name ≠ "SMA_" ++ toString w) →
      (calculate_moving_averages df windows).getCol name = df.getCol name)
    ∧ (∀ (df : DataFrame) (windows : List Int) (name : String),
      df.getCol name = none →
      (calculate_moving_averages df windows).getCol name ≠ none →
      ∃ w, w ∈ windows ∧ 0 < w ∧ name = "SMA_" ++ toString w) := by
  refine ⟨fun df windows h => ?_, fun df windows name h => ?_, fun df windows name h hne => ?_⟩
  · rw [calculate_moving_averages]
    split
    · rfl
    · split
      · rfl
      · exact foldl_nonpos_skip _ windows df h
  · rw [calculate_moving_averages]
    split
    · rfl
    · split
      · rfl
      · exact fold_untouched _ windows df name h
  · rw [calculate_moving_averages] at hne
    revert hne
    split
    · intro hne; exact absurd h hne
    · split
      · intro hne; exact absurd h hne
      · intro hne; exact fold_newcols _ windows df name h hne

/-- Witness for C8: windows `[-3, 0]` leave a concrete frame unchanged,
and the column `SMA_1` added for window 1 names a positive window. -/
theorem claim8_witness :
    calculate_moving_averages (mkPriceDf [1, 2]) [(-3 : Int), 0] = mkPriceDf [1, 2]
    ∧ (∃ w, w ∈ [(1 : Int)] ∧ 0 < w ∧ "SMA_1" = "SMA_" ++ toString w) :=
  ⟨claim8_windows.1 (mkPriceDf [1, 2]) [(-3 : Int), 0] (by decide),
   claim8_windows.2.2 (mkPriceDf [1, 2]) [(1 : Int)] "SMA_1" rfl (by decide)⟩

lemma screener_aux (windows : List Int) (prices : String → DataFrame) :
    ∀ (tickers : List String) (init : List Row),
      tickers.foldl (fun rows t =>
          if (prices t).isEmpty then rows
          else rows ++ [buildRow windows t (prices t)]) init
        = init ++ (tickers.filter (fun t => !(prices t).isEmpty)).map
            (fun t => buildRow windows t (prices t)) := by
  intro tickers
  induction tickers with
  | nil => intro init; simp
  | cons a rest ih =>
    intro init
    rw [List.foldl_cons, List.filter_cons]
    cases ha : (prices a).isEmpty with
    | true =>
      simp only [ha, if_true, Bool.not_true, Bool.false_eq_true, if_false]
      exact ih init
    | false =>
      simp only [ha, Bool.false_eq_true, if_false, Bool.not_false, if_true, List.map_cons]
      rw [ih (init ++ [buildRow windows a (prices a)]), List.append_assoc]
      rfl

/-- Claim C6: the screener loop equals a filter-then-map — every ticker
whose price fetch is empty contributes no row and aborts nothing; in
particular, with 3 tickers of which exactly one has no price data, the
table has exactly 2 rows. -/
theorem claim6_skip_empty :
    (∀ (windows : List Int) (prices : String → DataFrame) (tickers : List String),
      screener_rows windows prices tickers =
        (tickers.filter (fun t => !(prices t).isEmpty)).map
          (fun t => buildRow windows t (prices t)))
    ∧ (screener_rows [10]
        (fun t => if t = "BBB" then ⟨0, []⟩ else mkPriceDf [1, 2])
        ["AAA", "BBB", "CCC"]).length = 2 := by
  constructor
  · intro windows prices tickers
    rw [screener_rows, screener_aux windows prices tickers []]
    rfl
  · rfl

lemma attach_step (today : Int) (acc : List IpoRecord) (t : String) :
    (if acc.isEmpty || !(acc.any (fun r => r.ticker == t)) then
        acc ++ [synthRecord today t]
      else acc)
    = if acc.any (fun r => r.ticker == t) then acc else acc ++ [synthRecord today t] := by
  cases hacc : acc.isEmpty with
  | true =>
    rw [List.isEmpty_iff] at hacc
    subst hacc
    rfl
  | false =>
    cases hany : acc.any (fun r => r.ticker == t) with
    | true => rfl
    | false => rfl

lemma attach_aux (today : Int) :
    ∀ (manual : List String) (acc : List IpoRecord),
      ∃ added : List String,
        manual.foldl (fun acc t =>
            if acc.isEmpty || !(acc.any (fun r => r.ticker == t)) then
              acc ++ [synthRecord today t]
            else acc) acc
          = acc ++ added.map (synthRecord today)
        ∧ (∀ t ∈ added, t ∈ manual ∧ ∀ r ∈ acc, r.ticker ≠ t)
        ∧ (∀ t ∈ manual, (∀ r ∈ acc, r.ticker ≠ t) → t ∈ added) := by
  intro manual
  induction manual with
  | nil =>
    intro acc
    exact ⟨[], by simp, by simp, by simp⟩
  | cons t rest ih =>
    intro acc
    rw [List.foldl_cons, attach_step]
    cases hany : acc.any (fun r => r.ticker == t) with
    | true =>
      rw [if_pos rfl]
      obtain ⟨added, h1, h2, h3⟩ := ih acc
      obtain ⟨r0, hr0, hr0t⟩ := List.any_eq_true.mp hany
      refine ⟨added, h1, ?_, ?_⟩
      · intro u hu
        exact ⟨List.mem_cons_of_mem t ((h2 u hu).1), (h2 u hu).2⟩
      · intro u hu hnew
        cases hu with
        | head =>
          exact absurd (eq_of_beq hr0t) (hnew r0 hr0)
        | tail _ hm => exact h3 u hm hnew
    | false =>
      rw [if_neg (by simp)]
      obtain ⟨added, h1, h2, h3⟩ := ih (acc ++ [synthRecord today t])
      have hnotin : ∀ r ∈ acc, r.ticker ≠ t := by
        intro r hr
        have := List.any_eq_false.mp hany r hr
        simpa using this
      refine ⟨t :: added, ?_, ?_, ?_⟩
      · rw [h1, List.map_cons, List.append_assoc]
        rfl
      · intro u hu
        cases hu with
        | head => exact ⟨List.mem_cons_self t rest, hnotin⟩
        | tail _ hm =>
          refine ⟨List.mem_cons_of_mem t ((h2 u hm).1), ?_⟩
          intro r hr
          exact (h2 u hm).2 r (List.mem_append_left _ hr)
      · intro u hu hnew
        by_cases hut : u = t
        · subst hut
          exact List.mem_cons_self u added
        · cases hu with
          | head => exact absurd rfl hut
          | tail _ hm =>
            refine List.mem_cons_of_mem t (h3 u hm ?_)
            intro r hr
            rcases List.mem_append.mp hr with hra | hrs
            · exact hnew r hra
            · rw [List.mem_singleton.mp hrs]
              exact fun h => hut (h.symm)
        
/-- Claim C9: merging manual tickers appends, after the unchanged
existing records, exactly one synthetic record (company = ticker, empty
exchange, IPO date today) per manual ticker not already present; every
absent manual ticker is so added, and present ones add nothing. -/
theorem claim9_manual_merge (today : Int) (ipos : List IpoRecord) (manual : List String) :
    ∃ added : List String,
      attachManual today ipos manual = ipos ++ added.map (synthRecord today)
      ∧ (∀ t ∈ added, t ∈ manual ∧ ∀ r ∈ ipos, r.ticker ≠ t)
      ∧ (∀ t ∈ manual, (∀ r ∈ ipos, r.ticker ≠ t) → t ∈ added) :=
  attach_aux today manual ipos

/-- Witness for C9: with ARM already present, merging ARM and ZZZ leaves
the ARM record unchanged and appends only a synthetic ZZZ record. -/
theorem claim9_witness :
    ∃ added : List String,
      attachManual 100 [⟨"ARM", "Arm Holdings plc", "NASDAQ", some 10⟩] ["ARM", "ZZZ"]
        = [⟨"ARM", "Arm Holdings plc", "NASDAQ", some 10⟩] ++ added.map (synthRecord 100)
      ∧ (∀ t ∈ added, t ∈ ["ARM", "ZZZ"]
          ∧ ∀ r ∈ [(⟨"ARM", "Arm Holdings plc", "NASDAQ", some 10⟩ : IpoRecord)], r.ticker ≠ t)
      ∧ (∀ t ∈ ["ARM", "ZZZ"],
          (∀ r ∈ [(⟨"ARM", "Arm Holdings plc", "NASDAQ", some 10⟩ : IpoRecord)], r.ticker ≠ t) →
          t ∈ added) :=
  claim9_manual_merge 100 [⟨"ARM", "Arm Holdings plc", "NASDAQ", some 10⟩] ["ARM", "ZZZ"]

lemma keepLast_cons (r : IpoRecord) (rs : List IpoRecord) :
    drop_duplicates_keep_last (r :: rs) =
      if (drop_duplicates_keep_last rs).any (fun s => s.ticker == r.ticker) then
        drop_duplicates_keep_last rs
      else r :: drop_duplicates_keep_last rs := rfl

lemma keepLast_subset : ∀ (rs : List IpoRecord),
    ∀ r ∈ drop_duplicates_keep_last rs, r ∈ rs := by
  intro rs
  induction rs with
  | nil => intro r h; exact absurd h (List.not_mem_nil r)
  | cons a as ih =>
    intro r h
    rw [keepLast_cons] at h
    by_cases hc : (drop_duplicates_keep_last as).any (fun s => s.ticker == a.ticker) = true
    · rw [if_pos hc] at h
      exact List.mem_cons_of_mem a (ih r h)
    · rw [if_neg hc] at h
      cases h with
      | head => exact List.mem_cons_self a as
      | tail _ hm => exact List.mem_cons_of_mem a (ih r hm)

lemma keepLast_tickers : ∀ (rs : List IpoRecord) (t : String),
    (∃ r ∈ drop_duplicates_keep_last rs, r.ticker = t) ↔ ∃ r ∈ rs, r.ticker = t := by
  intro rs
  induction rs with
  | nil => intro t; rfl
  | cons a as ih =>
    intro t
    rw [keepLast_cons]
    by_cases hc : (drop_duplicates_keep_last as).any (fun s => s.ticker == a.ticker) = true
    · rw [if_pos hc]
      constructor
      · rintro ⟨r, hr, hrt⟩
        obtain ⟨u, hu, hut⟩ := (ih t).mp ⟨r, hr, hrt⟩
        exact ⟨u, List.mem_cons_of_mem a hu, hut⟩
      · rintro ⟨r, hr, hrt⟩
        cases hr with
        | head =>
          obtain ⟨u, hu, hut⟩ := List.any_eq_true.mp hc
          exact ⟨u, hu, by rw [eq_of_beq hut, hrt]⟩
        | tail _ hm => exact (ih t).mpr ⟨r, hm, hrt⟩
    · rw [if_neg hc]
      constructor
      · rintro ⟨r, hr, hrt⟩
        cases hr with
        | head => exact ⟨a, List.mem_cons_self a as, hrt⟩
        | tail _ hm =>
          obtain ⟨u, hu, hut⟩ := (ih t).mp ⟨r, hm, hrt⟩
          exact ⟨u, List.mem_cons_of_mem a hu, hut⟩
      · rintro ⟨r, hr, hrt⟩
        cases hr with
        | head => exact ⟨a, List.mem_cons_self a _, hrt⟩
        | tail _ hm =>
          obtain ⟨u, hu, hut⟩ := (ih t).mpr ⟨r, hm, hrt⟩
          exact ⟨u, List.mem_cons_of_mem a hu, hut⟩

lemma keepLast_nodup : ∀ (rs : List IpoRecord),
    ((drop_duplicates_keep_last rs).map (fun r => r.ticker)).Nodup := by
  intro rs
  induction rs with
  | nil => exact List.nodup_nil
  | cons a as ih =>
    rw [keepLast_cons]
    by_cases hc : (drop_duplicates_keep_last as).any (fun s => s.ticker == a.ticker) = true
    · rw [if_pos hc]
      exact ih
    · rw [if_neg hc, List.map_cons, List.nodup_cons]
      refine ⟨?_, ih⟩
      intro hmem
      obtain ⟨r, hr, hrt⟩ := List.mem_map.mp hmem
      exact hc (List.any_eq_true.mpr ⟨r, hr, beq_iff_eq.mpr hrt⟩)

lemma keepLast_maxdate : ∀ (rs : List IpoRecord), List.Sorted byDate rs →
    ∀ r ∈ drop_duplicates_keep_last rs,
      ∀ s ∈ rs, s.ticker = r.ticker → byDate s r := by
  intro rs
  induction rs with
  | nil => intro _ r hr; exact absurd hr (List.not_mem_nil r)
  | cons a as ih =>
    intro hsorted r hr s hs hst
    obtain ⟨ha, htail⟩ := List.pairwise_cons.mp hsorted
    rw [keepLast_cons] at hr
    by_cases hc : (drop_duplicates_keep_last as).any (fun t => t.ticker == a.ticker) = true
    · rw [if_pos hc] at hr
      cases hs with
      | head => exact ha r (keepLast_subset as r hr)
      | tail _ hm => exact ih htail r hr s hm hst
    · rw [if_neg hc] at hr
      cases hr with
      | head =>
        cases hs with
        | head => exact byDate_refl _
        | tail _ hm =>
          exfalso
          apply hc
          obtain ⟨u, hu, hut⟩ := (keepLast_tickers as s.ticker).mpr ⟨s, hm, rfl⟩
          exact List.any_eq_true.mpr ⟨u, hu, beq_iff_eq.mpr (by rw [hut, hst])⟩
      | tail _ hm =>
        cases hs with
        | head => exact ha r (keepLast_subset as r hm)
        | tail _ hms => exact ih htail r hm s hms hst

/-- Counterexample to claim C10 as stated: the live calendar can supply
a record without a date (data_fetcher.py line 43); its NaT sorts after
every present date, so `keep="last"` keeps the dateless duplicate.
Here ticker A has a record dated 9 and a dateless one — the dateless
record is kept and the record with the most recent IPO date is dropped,
so the kept record does not carry the most recent date. -/
theorem claim10_counterexample :
    get_recent_ipos [⟨"A", "a", "N", some 9⟩, ⟨"A", "a2", "N", none⟩] 0
      = [⟨"A", "a2", "N", none⟩]
    ∧ (⟨"A", "a", "N", some 9⟩ : IpoRecord) ∉
        get_recent_ipos [⟨"A", "a", "N", some 9⟩, ⟨"A", "a2", "N", none⟩] 0 := by
  decide

/-- Amended claim C10: `get_recent_ipos` returns at most one record per
ticker; every returned record comes from the source data actually used
(live records, or the demo list when none), is maximal for its ticker in
the sort order `byDate` — IPO dates ascending with a missing date above
every present one — and every source ticker is represented.  (With all
dates present the kept record carries the most recent date; a dateless
duplicate, which pandas sorts last, wins over any dated record.) -/
theorem claim10_dedup (api : List IpoRecord) (today : Int) :
    ((get_recent_ipos api today).map (fun r => r.ticker)).Nodup
    ∧ (∀ r ∈ get_recent_ipos api today,
        r ∈ (if api.isEmpty then demo_ipos today else api)
        ∧ ∀ s ∈ (if api.isEmpty then demo_ipos today else api),
            s.ticker = r.ticker → byDate s r)
    ∧ (∀ s ∈ (if api.isEmpty then demo_ipos today else api),
        ∃ r ∈ get_recent_ipos api today, r.ticker = s.ticker) := by
  have hdef : get_recent_ipos api today =
      if (if api.isEmpty then demo_ipos today else api).isEmpty then
        (if api.isEmpty then demo_ipos today else api)
      else drop_duplicates_keep_last
        (List.insertionSort byDate (if api.isEmpty then demo_ipos today else api)) := rfl
  set recs := if api.isEmpty then demo_ipos today else api with hrecs
  by_cases hempty : recs.isEmpty = true
  · have hnil : recs = [] := List.isEmpty_iff.mp hempty
    rw [hdef, if_pos hempty, hnil]
    refine ⟨List.nodup_nil, ?_, ?_⟩
    · intro r hr
      exact absurd hr (List.not_mem_nil r)
    · intro s hs
      exact absurd hs (List.not_mem_nil s)
  · rw [hdef, if_neg hempty]
    have hperm := List.perm_insertionSort byDate recs
    have hsorted := List.sorted_insertionSort byDate recs
    refine ⟨keepLast_nodup _, ?_, ?_⟩
    · intro r hr
      refine ⟨hperm.mem_iff.mp (keepLast_subset _ r hr), ?_⟩
      intro s hs hst
      exact keepLast_maxdate _ hsorted r hr s (hperm.mem_iff.mpr hs) hst
    · intro s hs
      obtain ⟨r, hr, hrt⟩ :=
        (keepLast_tickers (List.insertionSort byDate recs) s.ticker).mpr
          ⟨s, hperm.mem_iff.mpr hs, rfl⟩
      exact ⟨r, hr, hrt⟩

/-- Witness for C10 on a source list with a duplicated ticker A. -/
theorem claim10_witness :
    ((get_recent_ipos [⟨"A", "a", "N", some 5⟩, ⟨"B", "b", "N", some 3⟩, ⟨"A", "a2", "N", some 9⟩] 0).map
        (fun r => r.ticker)).Nodup
    ∧ (∀ r ∈ get_recent_ipos [⟨"A", "a", "N", some 5⟩, ⟨"B", "b", "N", some 3⟩, ⟨"A", "a2", "N", some 9⟩] 0,
        r ∈ (if ([⟨"A", "a", "N", some 5⟩, ⟨"B", "b", "N", some 3⟩,
              (⟨"A", "a2", "N", some 9⟩ : IpoRecord)] : List IpoRecord).isEmpty then demo_ipos 0
            else [⟨"A", "a", "N", some 5⟩, ⟨"B", "b", "N", some 3⟩, ⟨"A", "a2", "N", some 9⟩])
        ∧ ∀ s ∈ (if ([⟨"A", "a", "N", some 5⟩, ⟨"B", "b", "N", some 3⟩,
              (⟨"A", "a2", "N", some 9⟩ : IpoRecord)] : List IpoRecord).isEmpty then demo_ipos 0
            else [⟨"A", "a", "N", some 5⟩, ⟨"B", "b", "N", some 3⟩, ⟨"A", "a2", "N", some 9⟩]),
            s.ticker = r.ticker → byDate s r)
    ∧ (∀ s ∈ (if ([⟨"A", "a", "N", some 5⟩, ⟨"B", "b", "N", some 3⟩,
              (⟨"A", "a2", "N", some 9⟩ : IpoRecord)] : List IpoRecord).isEmpty then demo_ipos 0
            else [⟨"A", "a", "N", some 5⟩, ⟨"B", "b", "N", some 3⟩, ⟨"A", "a2", "N", some 9⟩]),
        ∃ r ∈ get_recent_ipos [⟨"A", "a", "N", some 5⟩, ⟨"B", "b", "N", some 3⟩, ⟨"A", "a2", "N", some 9⟩] 0,
          r.ticker = s.ticker) :=
  claim10_dedup [⟨"A", "a", "N", some 5⟩, ⟨"B", "b", "N", some 3⟩, ⟨"A", "a2", "N", some 9⟩] 0

/-- Witness for C2 on concrete one-row frames: 105 vs 100 is above,
95 vs 100 is below, 100 vs 100 is below, and a missing MA is n/a. -/
theorem claim2_witness :
    List.lookup (10 : Int) ((get_ma_signals
        ⟨1, [("Close", [some 105]), ("SMA_10", [some 100])]⟩ [(10 : Int)]).1) = some "above"
    ∧ List.lookup (10 : Int) ((get_ma_signals
        ⟨1, [("Close", [some 95]), ("SMA_10", [some 100])]⟩ [(10 : Int)]).1) = some "below"
    ∧ List.lookup (10 : Int) ((get_ma_signals
        ⟨1, [("Close", [some 100]), ("SMA_10", [some 100])]⟩ [(10 : Int)]).1) = some "below"
    ∧ List.lookup (10 : Int) ((get_ma_signals
        ⟨1, [("Close", [some 100]), ("SMA_10", [none])]⟩ [(10 : Int)]).1) = some "n/a" := by
  refine ⟨?_, ?_, ?_, ?_⟩
  · exact (claim2_signals ⟨1, [("Close", [some 105]), ("SMA_10", [some 100])]⟩
      [10] 10 (by decide) rfl).1 105 100 rfl rfl (by norm_num)
  · exact (claim2_signals ⟨1, [("Close", [some 95]), ("SMA_10", [some 100])]⟩
      [10] 10 (by decide) rfl).2.1 95 100 rfl rfl (by norm_num)
  · exact (claim2_signals ⟨1, [("Close", [some 100]), ("SMA_10", [some 100])]⟩
      [10] 10 (by decide) rfl).2.1 100 100 rfl rfl le_rfl
  · exact (claim2_signals ⟨1, [("Close", [some 100]), ("SMA_10", [none])]⟩
      [10] 10 (by decide) rfl).2.2 (Or.inr rfl)

end IpoScreener
